import Mathlib

/-!
# universal_server: the connection-multiplexing loop of `server.c`

A shallow embedding of `server_remove_client`, `server_send_all_client`,
`server_new_client_data`, `server_new_client_connect` and of one iteration of
the `while (1)` loop of `server_select`, followed by theorems about them.

Modelling conventions.

* The array `clients` is a map from cell index to the `sock` field stored in
  that cell; `nb_sock` is the counter the C code passes around by pointer.
  The registry is the list of the first `nb_sock` cells.  Cells at index
  `max_clients` and above lie outside the declared array
  `client_info clients[max_clients]`; the model keeps them as ordinary cells so
  that the counter arithmetic of the program can be followed there too.
* Indices and counters (`i`, `nb_sock`, `index_current_client`) are natural
  numbers: in the source they start at `0` and are only incremented, or
  decremented by `server_remove_client`, which every caller reaches with
  `index < nb_sock`.  Socket handles are integers (`-1` is the error value).
* System calls are answered by an environment `Env`: the answer to the `n`-th
  call of each kind is a function of `n` (and of the handle), so every
  interleaving of outcomes is covered.  The state counts the calls made and
  records them in a trace.
* The inner `while` loops take a fuel argument that the caller sets to the
  loop variant `nb_sock - i`; running out of fuel is reported as `none` and is
  proved never to happen.
-/

namespace UniversalServer

/-- Size of the relay buffer, `#define SERVER_BUFFER_SIZE 1024`. -/
def SERVER_BUFFER_SIZE : Nat := 1024

/-- Error value of the socket calls, `#define SERVER_SOCKER_ERROR -1`. -/
def SERVER_SOCKER_ERROR : Int := -1

/-- Calls recorded in the trace.  `remove index nb_sock` records an entry into
`server_remove_client` with that index while `*nb_sock` had that value. -/
inductive Event where
  | accept (sock : Int)
  | read (fd : Int)
  | write (fd : Int) (payload : List Nat)
  | remove (index : Nat) (nb_sock : Nat)
  | close (fd : Int)
  deriving DecidableEq

/-- Answers of the operating system.  `accept_ret n` is the value returned by
the `n`-th `accept`; `read_ret n fd` and `read_data n fd` are the return value
of the `n`-th `read` (made on `fd`) and the bytes it delivers; `write_ret n fd`
is the return value of the `n`-th `write`; `select_ret n` and
`select_ready n` are the return value of the `n`-th `select` and the set of
descriptors that are readable at that time. -/
structure Env where
  accept_ret : Nat → Int
  read_ret : Nat → Int → Int
  read_data : Nat → Int → List Nat
  write_ret : Nat → Int → Int
  select_ret : Nat → Int
  select_ready : Nat → Int → Bool

/-- The pair `(clients, *nb_sock)` every helper receives, with the number of
system calls made so far and the trace of calls. -/
structure State where
  clients : Nat → Int
  nb_sock : Nat
  naccept : Nat
  nread : Nat
  nwrite : Nat
  nselect : Nat
  trace : List Event

/-- The registry: the cells `clients[0 .. nb_sock - 1]`, in storage order. -/
def registry (s : State) : List Int :=
  (List.range s.nb_sock).map s.clients

/-- The `write` calls of a trace, in order: handle and bytes sent. -/
def writes_of : List Event → List (Int × List Nat)
  | [] => []
  | Event.write fd p :: t => (fd, p) :: writes_of t
  | _ :: t => writes_of t

/-- The handles on which a trace has a `read` call, in order. -/
def reads_of : List Event → List Int
  | [] => []
  | Event.read fd :: t => fd :: reads_of t
  | _ :: t => reads_of t

/-- The entries into `server_remove_client` of a trace: index and `*nb_sock`
at the call. -/
def removes_of : List Event → List (Nat × Nat)
  | [] => []
  | Event.remove k n :: t => (k, n) :: removes_of t
  | _ :: t => removes_of t

/-- The call `memmove(mem + dst, mem + src, n * sizeof(client_info))`: the `n` cells
starting at `src` are copied to the `n` cells starting at `dst`, the source
being read before anything is overwritten. -/
def memmove (mem : Nat → Int) (dst src n : Nat) : Nat → Int :=
  fun j => if dst ≤ j ∧ j < dst + n then mem (src + (j - dst)) else mem j

/-- The function `server_remove_client`: closes `clients[index].sock`, moves the cells after
`index` one place down and decrements `*nb_sock`. -/
def server_remove_client (s : State) (index_current_client : Nat) : State :=
  { s with
    trace := s.trace ++ [Event.remove index_current_client s.nb_sock,
                         Event.close (s.clients index_current_client)]
    clients := memmove s.clients index_current_client (index_current_client + 1)
                 (s.nb_sock - index_current_client - 1)
    nb_sock := s.nb_sock - 1 }

/-- The `while (i < *nb_sock)` loop of `server_send_all_client`, started at
cursor `i`.  `write(clients[i].sock, buf, buflen)` sends the first `buflen`
bytes of `buf`. -/
def send_loop (env : Env) (buf : List Nat) (buflen : Int) :
    Nat → State → Nat → Option State
  | 0, s, i => if i < s.nb_sock then none else some s
  | fuel + 1, s, i =>
    if i < s.nb_sock then
      let fd := s.clients i
      let r := env.write_ret s.nwrite fd
      let s1 := { s with nwrite := s.nwrite + 1
                         trace := s.trace ++ [Event.write fd (buf.take buflen.toNat)] }
      if r = SERVER_SOCKER_ERROR then
        send_loop env buf buflen fuel (server_remove_client s1 i) i
      else
        send_loop env buf buflen fuel s1 (i + 1)
    else some s

/-- The function `server_send_all_client`: the loop from `i = 0`. -/
def server_send_all_client (env : Env) (s : State) (buf : List Nat) (buflen : Int) :
    Option State :=
  send_loop env buf buflen s.nb_sock s 0

/-- Contents of `char buf[SERVER_BUFFER_SIZE] = {0}` after
`read(fd, buf, sizeof(buf) - 1)` delivered `data`: at most
`SERVER_BUFFER_SIZE - 1` bytes are stored at the front, the rest stays zero. -/
def read_buf (data : List Nat) : List Nat :=
  let stored := data.take (SERVER_BUFFER_SIZE - 1)
  stored ++ List.replicate (SERVER_BUFFER_SIZE - stored.length) 0

/-- The function `server_new_client_data`: one `read` on the client at the index; a result
`<= 0` removes that client and returns, otherwise the bytes are handed to
`server_send_all_client`. -/
def server_new_client_data (env : Env) (s : State) (index_current_client : Nat) :
    Option State :=
  let fd := s.clients index_current_client
  let buflen := env.read_ret s.nread fd
  let buf := read_buf (env.read_data s.nread fd)
  let s1 := { s with nread := s.nread + 1, trace := s.trace ++ [Event.read fd] }
  if buflen ≤ 0 then
    some (server_remove_client s1 index_current_client)
  else
    server_send_all_client env s1 buf buflen

/-- The function `server_new_client_connect`: `accept`, then the returned value is stored
in `clients[*nb_sock]` and `*nb_sock` is incremented, whatever the value; the
value is returned. -/
def server_new_client_connect (env : Env) (s : State) (sock : Int) : State × Int :=
  let csock := env.accept_ret s.naccept
  ({ s with
     naccept := s.naccept + 1
     trace := s.trace ++ [Event.accept sock]
     clients := fun j => if j = s.nb_sock then csock else s.clients j
     nb_sock := s.nb_sock + 1 }, csock)

/-- The locals of `server_select` that live across iterations, with the
parameter `max_clients` that sizes the array `clients`. -/
structure Loop where
  st : State
  max_sock : Int
  max_clients : Nat

/-- How one iteration of `while (1)` ends: the loop goes on to the next
iteration, `server_select` returns, or the process exits. -/
inductive Outcome where
  | next (l : Loop)
  | returned (l : Loop)
  | exited (l : Loop)

/-- The locals at the end of an iteration. -/
def Outcome.loop : Outcome → Loop
  | Outcome.next l => l
  | Outcome.returned l => l
  | Outcome.exited l => l

/-- The macro `FD_SET(fd, &set)`. -/
def FD_SET (fd : Int) (set : Int → Bool) : Int → Bool :=
  fun x => x == fd || set x

/-- The watch set: `FD_ZERO`, `FD_SET(sock)`, then `FD_SET(clients[i].sock)`
for `i = 0 .. nb_sock - 1`. -/
def watch_set (sock : Int) (s : State) : Int → Bool :=
  (List.range s.nb_sock).foldl (fun set i => FD_SET (s.clients i) set)
    (FD_SET sock (fun _ => false))

/-- The set `select(nfds, &rdfs, NULL, NULL, NULL)` leaves in `rdfs`: the
descriptors of the watch set that lie in `0 .. nfds - 1` and are readable. -/
def select_rdfs (env : Env) (n : Nat) (nfds : Int) (watch : Int → Bool) : Int → Bool :=
  fun fd => decide (0 ≤ fd) && decide (fd < nfds) && watch fd && env.select_ready n fd

/-- The scan `i = 0; while (i < nb_sock) { if (FD_ISSET(clients[i].sock, &rdfs))
server_new_client_data(clients, &nb_sock, i); ++i; }` of `server_select`,
started at cursor `i`. -/
def scan_loop (env : Env) (rdfs : Int → Bool) : Nat → State → Nat → Option State
  | 0, s, i => if i < s.nb_sock then none else some s
  | fuel + 1, s, i =>
    if i < s.nb_sock then
      if rdfs (s.clients i) then
        match server_new_client_data env s i with
        | none => none
        | some s1 => scan_loop env rdfs fuel s1 (i + 1)
      else
        scan_loop env rdfs fuel s (i + 1)
    else some s

/-- The client scan of one iteration, from `i = 0`. -/
def scan_clients (env : Env) (rdfs : Int → Bool) (s : State) : Option State :=
  scan_loop env rdfs s.nb_sock s 0

/-- One iteration of the `while (1)` loop of `server_select`. -/
def server_select_iter (env : Env) (sock : Int) (l : Loop) : Option Outcome :=
  let watch := watch_set sock l.st
  let n := l.st.nselect
  let s0 := { l.st with nselect := n + 1 }
  if env.select_ret n = SERVER_SOCKER_ERROR then
    some (Outcome.exited { l with st := s0 })
  else
    let rdfs := select_rdfs env n (l.max_sock + 1) watch
    if rdfs sock then
      let r := server_new_client_connect env s0 sock
      if r.2 = SERVER_SOCKER_ERROR then
        some (Outcome.returned { l with st := r.1 })
      else
        some (Outcome.next { l with st := r.1
                                    max_sock := if r.2 > l.max_sock then r.2 else l.max_sock })
    else
      match scan_clients env rdfs s0 with
      | none => none
      | some s1 => some (Outcome.next { l with st := s1 })

/-- The locals of `server_select` on entry to the loop: `nb_sock = 0`,
`max_sock = sock`, the array `clients` not initialised (`mem`). -/
def server_select_init (sock : Int) (max_clients : Nat) (mem : Nat → Int) : Loop :=
  { st := { clients := mem, nb_sock := 0, naccept := 0, nread := 0, nwrite := 0,
            nselect := 0, trace := [] }
    max_sock := sock
    max_clients := max_clients }

/-- The first `n` iterations of `server_select`, stopping early when an
iteration returns or exits. -/
def server_select (env : Env) (sock : Int) : Nat → Loop → Option Outcome
  | 0, l => some (Outcome.next l)
  | n + 1, l =>
    match server_select_iter env sock l with
    | some (Outcome.next l1) => server_select env sock n l1
    | o => o

/-- The clients of `cs` whose write does not fail, when the writes are the
calls number `w`, `w + 1`, ... and go to the clients of `cs` in order: the
sub-sequence of the positions `j` with `write_ret (w + j) cs[j] ≠ -1`. -/
def survivors (env : Env) (w : Nat) (cs : List Int) : List Int :=
  ((List.zip (List.range cs.length) cs).filter
    (fun p => decide (env.write_ret (w + p.1) p.2 ≠ SERVER_SOCKER_ERROR))).map Prod.snd

/-- The invariant of `max_sock`: it bounds the listening socket and every
handle of the registry. -/
def max_sock_covers (sock : Int) (l : Loop) : Prop :=
  sock ≤ l.max_sock ∧ ∀ fd ∈ registry l.st, fd ≤ l.max_sock

/-- A state whose registry is `cs`, before any system call. -/
def state_of (cs : List Int) : State :=
  { clients := fun j => cs.getD j 0, nb_sock := cs.length, naccept := 0, nread := 0,
    nwrite := 0, nselect := 0, trace := [] }

/-- An environment in which nothing fails: the `n`-th `accept` returns the
handle `4 + n`, every `read` delivers the three bytes `104, 105, 10`, every
`write` reports three bytes written, every `select` succeeds and every
descriptor is readable. -/
def env_quiet : Env :=
  { accept_ret := fun n => 4 + (n : Int)
    read_ret := fun _ _ => 3
    read_data := fun _ _ => [104, 105, 10]
    write_ret := fun _ _ => 3
    select_ret := fun _ => 1
    select_ready := fun _ _ => true }

/-- As `env_quiet`, but the second `write` (call number 1) fails. -/
def env_second_write_fails : Env :=
  { env_quiet with write_ret := fun n _ => if n = 1 then -1 else 3 }

/-- As `env_quiet`, but every `accept` fails. -/
def env_accept_fails : Env :=
  { env_quiet with accept_ret := fun _ => -1 }

/-- Only the listening socket `3` is readable, and every `accept` succeeds. -/
def env_only_listener : Env :=
  { env_quiet with select_ready := fun _ fd => fd == 3 }

/-- Two connections are accepted (handles `4` and `5`) while only the listener
`3` is readable; at the third `select` the listener is quiet and both clients
are readable; the `read` on handle `4` returns `0` (the peer closed). -/
def env_first_reader_closes : Env :=
  { env_quiet with
    select_ready := fun n fd => if n < 2 then fd == 3 else fd != 3
    read_ret := fun _ fd => if fd = 4 then 0 else 3 }

/-! ## Auxiliary lemmas -/

theorem registry_length (s : State) : (registry s).length = s.nb_sock := by
  simp [registry]

theorem registry_getElem (s : State) (j : Nat) (h : j < (registry s).length) :
    (registry s)[j] = s.clients j := by
  simp [registry]

theorem registry_remove (s : State) (k : Nat) (hk : k < s.nb_sock) :
    registry (server_remove_client s k) = (registry s).eraseIdx k := by
  apply List.ext_getElem
  · rw [List.length_eraseIdx, registry_length, registry_length]
    simp [server_remove_client, hk]
  · intro j h1 h2
    rw [registry_getElem, List.getElem_eraseIdx]
    have hj : j < s.nb_sock - 1 := by
      have h3 := registry_length (server_remove_client s k)
      have h4 : (server_remove_client s k).nb_sock = s.nb_sock - 1 := rfl
      omega
    by_cases hjk : j < k
    · simp [hjk, registry, server_remove_client, memmove]
    · simp only [hjk, dif_neg, not_false_eq_true, registry_getElem]
      simp only [server_remove_client, memmove]
      have : k ≤ j ∧ j < k + (s.nb_sock - k - 1) := by omega
      rw [if_pos this]
      congr 1
      omega

theorem writes_of_append (a b : List Event) :
    writes_of (a ++ b) = writes_of a ++ writes_of b := by
  induction a with
  | nil => rfl
  | cons e t ih => cases e <;> simp [writes_of, ih]

theorem reads_of_append (a b : List Event) :
    reads_of (a ++ b) = reads_of a ++ reads_of b := by
  induction a with
  | nil => rfl
  | cons e t ih => cases e <;> simp [reads_of, ih]

theorem removes_of_append (a b : List Event) :
    removes_of (a ++ b) = removes_of a ++ removes_of b := by
  induction a with
  | nil => rfl
  | cons e t ih => cases e <;> simp [removes_of, ih]

theorem survivors_nil (env : Env) (w : Nat) : survivors env w [] = [] := rfl

theorem survivors_cons (env : Env) (w : Nat) (c : Int) (cs : List Int) :
    survivors env w (c :: cs) =
      if env.write_ret w c = SERVER_SOCKER_ERROR then survivors env (w + 1) cs
      else c :: survivors env (w + 1) cs := by
  have hz : List.zip (List.range (cs.length + 1)) (c :: cs) =
      (0, c) :: (List.zip (List.range cs.length) cs).map (fun p => (p.1 + 1, p.2)) := by
    rw [List.range_succ_eq_map, List.zip_cons_cons, List.zip_map_left]
    rfl
  unfold survivors
  rw [List.length_cons, hz, List.filter_cons, List.filter_map]
  have hf : ((fun p : Nat × Int => decide (env.write_ret (w + p.1) p.2 ≠ SERVER_SOCKER_ERROR)) ∘
      fun p : Nat × Int => (p.1 + 1, p.2)) =
      fun p : Nat × Int => decide (env.write_ret (w + 1 + p.1) p.2 ≠ SERVER_SOCKER_ERROR) := by
    funext p
    simp only [Function.comp, Nat.add_assoc, Nat.add_comm 1]
  have hg : (Prod.snd ∘ fun p : Nat × Int => (p.1 + 1, p.2)) = Prod.snd := rfl
  rw [hf]
  by_cases h : env.write_ret w c = SERVER_SOCKER_ERROR
  · simp [h, List.map_map, hg]
  · simp [h, List.map_map, hg]

theorem registry_drop (s : State) (i : Nat) (h : i < s.nb_sock) :
    (registry s).drop i = s.clients i :: (registry s).drop (i + 1) := by
  have hl : i < (registry s).length := by rw [registry_length]; exact h
  rw [List.drop_eq_getElem_cons hl, registry_getElem]

theorem take_eraseIdx_self (l : List Int) (i : Nat) (h : i < l.length) :
    (l.eraseIdx i).take i = l.take i := by
  rw [List.eraseIdx_eq_take_drop_succ]
  have hl : (l.take i).length = i := by rw [List.length_take]; omega
  exact List.take_left' hl

theorem drop_eraseIdx_self (l : List Int) (i : Nat) (h : i < l.length) :
    (l.eraseIdx i).drop i = l.drop (i + 1) := by
  rw [List.eraseIdx_eq_take_drop_succ]
  have hl : (l.take i).length = i := by rw [List.length_take]; omega
  exact List.drop_left' hl

theorem send_loop_spec (env : Env) (buf : List Nat) (buflen : Int) :
    ∀ (fuel : Nat) (s : State) (i : Nat), i ≤ s.nb_sock → s.nb_sock - i ≤ fuel →
      ∃ s' t, send_loop env buf buflen fuel s i = some s' ∧
        registry s' = (registry s).take i ++ survivors env s.nwrite ((registry s).drop i) ∧
        s'.trace = s.trace ++ t ∧
        writes_of t = ((registry s).drop i).map (fun fd => (fd, buf.take buflen.toNat)) ∧
        reads_of t = [] ∧
        (∀ p ∈ removes_of t, p.1 < p.2) ∧
        s'.naccept = s.naccept ∧ s'.nread = s.nread ∧ s'.nselect = s.nselect ∧
        s'.nwrite = s.nwrite + (s.nb_sock - i) := by
  intro fuel
  induction fuel with
  | zero =>
    intro s i hi hf
    have hE : i = s.nb_sock := by omega
    refine ⟨s, [], ?_, ?_, by simp, ?_, rfl, by simp [removes_of], rfl, rfl, rfl, by omega⟩
    · simp [send_loop, hE]
    · have hd : (registry s).drop i = [] := by
        apply List.drop_eq_nil_of_le; rw [registry_length]; omega
      have ht : (registry s).take i = registry s := by
        apply List.take_of_length_le; rw [registry_length]; omega
      rw [hd, ht, survivors_nil, List.append_nil]
    · have hd : (registry s).drop i = [] := by
        apply List.drop_eq_nil_of_le; rw [registry_length]; omega
      rw [hd]; rfl
  | succ fuel ih =>
    intro s i hi hf
    by_cases hlt : i < s.nb_sock
    · have hl : i < (registry s).length := by rw [registry_length]; exact hlt
      by_cases hw : env.write_ret s.nwrite (s.clients i) = SERVER_SOCKER_ERROR
      · -- the write fails: the client is removed and the cursor stays
        have hrem : registry (server_remove_client
            { s with nwrite := s.nwrite + 1,
                     trace := s.trace ++ [Event.write (s.clients i) (buf.take buflen.toNat)] } i)
            = (registry s).eraseIdx i := registry_remove _ i hlt
        obtain ⟨s', t, h1, h2, h3, h4, h5, h6, h7, h8, h9, h10⟩ :=
          ih (server_remove_client
            { s with nwrite := s.nwrite + 1,
                     trace := s.trace ++ [Event.write (s.clients i) (buf.take buflen.toNat)] } i)
            i (by simp only [server_remove_client]; omega)
            (by simp only [server_remove_client]; omega)
        refine ⟨s', [Event.write (s.clients i) (buf.take buflen.toNat),
          Event.remove i s.nb_sock, Event.close (s.clients i)] ++ t, ?_, ?_, ?_, ?_, ?_, ?_,
          h7, h8, h9, ?_⟩
        · rw [send_loop, if_pos hlt]
          simp only [hw, if_true]
          exact h1
        · rw [h2, hrem, take_eraseIdx_self _ _ hl, drop_eraseIdx_self _ _ hl,
            registry_drop s i hlt, survivors_cons, if_pos hw]
          rfl
        · rw [h3]; simp [server_remove_client]
        · rw [writes_of_append, h4, hrem, drop_eraseIdx_self _ _ hl, registry_drop s i hlt]
          simp [writes_of]
        · rw [reads_of_append, h5]; rfl
        · intro p hp
          rw [removes_of_append] at hp
          rcases List.mem_append.mp hp with hp | hp
          · simp [removes_of] at hp
            subst hp
            exact hlt
          · exact h6 p hp
        · rw [h10]; simp only [server_remove_client]; omega
      · -- the write succeeds: the cursor advances
        obtain ⟨s', t, h1, h2, h3, h4, h5, h6, h7, h8, h9, h10⟩ :=
          ih ({ s with nwrite := s.nwrite + 1,
                       trace := s.trace ++ [Event.write (s.clients i) (buf.take buflen.toNat)] })
            (i + 1) hlt (by show s.nb_sock - (i + 1) ≤ fuel; omega)
        have hreg : registry ({ s with nwrite := s.nwrite + 1,
                                       trace := s.trace ++
                                         [Event.write (s.clients i) (buf.take buflen.toNat)] })
            = registry s := rfl
        refine ⟨s', [Event.write (s.clients i) (buf.take buflen.toNat)] ++ t, ?_, ?_, ?_, ?_, ?_,
          ?_, h7, h8, h9, ?_⟩
        · rw [send_loop, if_pos hlt]
          simp only [hw, if_false]
          exact h1
        · rw [h2, hreg, registry_drop s i hlt, survivors_cons, if_neg hw,
            List.take_succ, List.getElem?_eq_getElem hl, registry_getElem]
          simp
        · rw [h3]; simp
        · rw [writes_of_append, h4, hreg, registry_drop s i hlt]
          simp [writes_of]
        · rw [reads_of_append, h5]; rfl
        · intro p hp
          rw [removes_of_append] at hp
          rcases List.mem_append.mp hp with hp | hp
          · simp [removes_of] at hp
          · exact h6 p hp
        · rw [h10]; show s.nwrite + 1 + (s.nb_sock - (i + 1)) = _; omega
    · have hE : i = s.nb_sock := by omega
      refine ⟨s, [], ?_, ?_, by simp, ?_, rfl, by simp [removes_of], rfl, rfl, rfl, by omega⟩
      · rw [send_loop, if_neg hlt]
      · have hd : (registry s).drop i = [] := by
          apply List.drop_eq_nil_of_le; rw [registry_length]; omega
        have ht : (registry s).take i = registry s := by
          apply List.take_of_length_le; rw [registry_length]; omega
        rw [hd, ht, survivors_nil, List.append_nil]
      · have hd : (registry s).drop i = [] := by
          apply List.drop_eq_nil_of_le; rw [registry_length]; omega
        rw [hd]; rfl

theorem mem_survivors (env : Env) (cs : List Int) :
    ∀ (w : Nat) (x : Int), x ∈ survivors env w cs →
      ∃ m, ∃ h : m < cs.length, cs[m] = x ∧ env.write_ret (w + m) x ≠ SERVER_SOCKER_ERROR := by
  induction cs with
  | nil => intro w x hx; simp [survivors_nil] at hx
  | cons c cs ih =>
    intro w x hx
    rw [survivors_cons] at hx
    have hrest : x ∈ survivors env (w + 1) cs →
        ∃ m, ∃ h : m < (c :: cs).length, (c :: cs)[m] = x ∧
          env.write_ret (w + m) x ≠ SERVER_SOCKER_ERROR := by
      intro hx'
      obtain ⟨m, hm, h1, h2⟩ := ih (w + 1) x hx'
      refine ⟨m + 1, by simp; omega, by simpa using h1, ?_⟩
      have : w + (m + 1) = w + 1 + m := by omega
      rw [this]; exact h2
    by_cases hw : env.write_ret w c = SERVER_SOCKER_ERROR
    · rw [if_pos hw] at hx
      exact hrest hx
    · rw [if_neg hw] at hx
      rcases List.mem_cons.mp hx with hx | hx
      · subst hx
        exact ⟨0, by simp, rfl, by simpa using hw⟩
      · exact hrest hx

theorem survivors_subset (env : Env) (w : Nat) (cs : List Int) (x : Int)
    (hx : x ∈ survivors env w cs) : x ∈ cs := by
  obtain ⟨m, hm, h1, _⟩ := mem_survivors env cs w x hx
  rw [← h1]
  exact List.getElem_mem hm

theorem survivors_length_le (env : Env) (cs : List Int) :
    ∀ w : Nat, (survivors env w cs).length ≤ cs.length := by
  induction cs with
  | nil => intro w; simp [survivors_nil]
  | cons c cs ih =>
    intro w
    rw [survivors_cons]
    have := ih (w + 1)
    split <;> simp <;> omega

theorem read_buf_take (data : List Nat) (n : Nat) (hlen : data.length = n)
    (hn : n ≤ SERVER_BUFFER_SIZE - 1) : (read_buf data).take ((n : Int).toNat) = data := by
  have h1 : data.take (SERVER_BUFFER_SIZE - 1) = data :=
    List.take_of_length_le (by omega)
  simp only [read_buf, h1, Int.toNat_ofNat]
  exact List.take_left' hlen

theorem server_send_all_client_spec (env : Env) (s : State) (buf : List Nat) (buflen : Int) :
    ∃ s' t, server_send_all_client env s buf buflen = some s' ∧
      registry s' = survivors env s.nwrite (registry s) ∧
      s'.trace = s.trace ++ t ∧
      writes_of t = (registry s).map (fun fd => (fd, buf.take buflen.toNat)) ∧
      reads_of t = [] ∧
      (∀ p ∈ removes_of t, p.1 < p.2) ∧
      s'.naccept = s.naccept ∧ s'.nread = s.nread ∧ s'.nselect = s.nselect := by
  obtain ⟨s', t, h1, h2, h3, h4, h5, h6, h7, h8, h9, _⟩ :=
    send_loop_spec env buf buflen s.nb_sock s 0 (Nat.zero_le _) (by omega)
  refine ⟨s', t, h1, ?_, h3, ?_, h5, h6, h7, h8, h9⟩
  · simpa using h2
  · simpa using h4

theorem server_new_client_data_spec (env : Env) (s : State) (k : Nat) (hk : k < s.nb_sock) :
    ∃ s' t, server_new_client_data env s k = some s' ∧
      s'.trace = s.trace ++ t ∧
      reads_of t = [s.clients k] ∧
      (∀ p ∈ removes_of t, p.1 < p.2) ∧
      (∀ x ∈ registry s', x ∈ registry s) ∧
      s'.nb_sock ≤ s.nb_sock ∧
      s'.naccept = s.naccept ∧ s'.nselect = s.nselect := by
  by_cases hr : env.read_ret s.nread (s.clients k) ≤ 0
  · refine ⟨server_remove_client
      ({ s with nread := s.nread + 1, trace := s.trace ++ [Event.read (s.clients k)] }) k,
      [Event.read (s.clients k), Event.remove k s.nb_sock,
      Event.close (s.clients k)], ?_, ?_, rfl, ?_, ?_, ?_, rfl, rfl⟩
    · simp only [server_new_client_data, hr, if_true]
    · simp [server_remove_client]
    · intro p hp
      simp [removes_of] at hp
      subst hp
      exact hk
    · intro x hx
      have hreg := registry_remove
        ({ s with nread := s.nread + 1, trace := s.trace ++ [Event.read (s.clients k)] }) k hk
      rw [hreg] at hx
      exact List.mem_of_mem_eraseIdx hx
    · show s.nb_sock - 1 ≤ s.nb_sock
      omega
  · obtain ⟨s', t, h1, h2, h3, h4, h5, h6, h7, h8, h9⟩ :=
      server_send_all_client_spec env
        ({ s with nread := s.nread + 1, trace := s.trace ++ [Event.read (s.clients k)] })
        (read_buf (env.read_data s.nread (s.clients k))) (env.read_ret s.nread (s.clients k))
    refine ⟨s', [Event.read (s.clients k)] ++ t, ?_, ?_, ?_, ?_, ?_, ?_, h7, h9⟩
    · simp only [server_new_client_data, hr, if_false]
      exact h1
    · rw [h3]; simp
    · rw [reads_of_append, h5]; rfl
    · intro p hp
      rw [removes_of_append] at hp
      rcases List.mem_append.mp hp with hp | hp
      · simp [removes_of] at hp
      · exact h6 p hp
    · intro x hx
      rw [h2] at hx
      exact survivors_subset env _ _ x hx
    · have hl := congrArg List.length h2
      rw [registry_length] at hl
      have := survivors_length_le env
        (registry ({ s with nread := s.nread + 1,
                            trace := s.trace ++ [Event.read (s.clients k)] })) s.nwrite
      rw [registry_length] at this
      have e : ({ s with nread := s.nread + 1,
                         trace := s.trace ++ [Event.read (s.clients k)] } : State).nwrite
          = s.nwrite := rfl
      rw [e] at hl
      have e2 : ({ s with nread := s.nread + 1,
                          trace := s.trace ++ [Event.read (s.clients k)] } : State).nb_sock
          = s.nb_sock := rfl
      omega

theorem scan_loop_spec (env : Env) (rdfs : Int → Bool) :
    ∀ (fuel : Nat) (s : State) (i : Nat), s.nb_sock - i ≤ fuel →
      ∃ s' t, scan_loop env rdfs fuel s i = some s' ∧
        s'.trace = s.trace ++ t ∧
        (∀ p ∈ removes_of t, p.1 < p.2) ∧
        (∀ x ∈ registry s', x ∈ registry s) ∧
        s'.nb_sock ≤ s.nb_sock ∧
        s'.naccept = s.naccept ∧ s'.nselect = s.nselect := by
  intro fuel
  induction fuel with
  | zero =>
    intro s i hf
    have hlt : ¬ i < s.nb_sock := by omega
    exact ⟨s, [], by simp [scan_loop, hlt], by simp, by simp [removes_of],
      fun x hx => hx, Nat.le_refl _, rfl, rfl⟩
  | succ fuel ih =>
    intro s i hf
    by_cases hlt : i < s.nb_sock
    · by_cases hr : rdfs (s.clients i) = true
      · obtain ⟨s1, t1, a1, a2, _, a3, a4, a5, a6, a7⟩ :=
          server_new_client_data_spec env s i hlt
        obtain ⟨s', t, b1, b2, b3, b4, b5, b6, b7⟩ := ih s1 (i + 1) (by omega)
        refine ⟨s', t1 ++ t, ?_, ?_, ?_, fun x hx => a4 x (b4 x hx), by omega,
          by rw [b6, a6], by rw [b7, a7]⟩
        · rw [scan_loop, if_pos hlt, if_pos hr, a1]
          exact b1
        · rw [b2, a2, List.append_assoc]
        · intro p hp
          rw [removes_of_append] at hp
          rcases List.mem_append.mp hp with hp | hp
          · exact a3 p hp
          · exact b3 p hp
      · obtain ⟨s', t, b1, b2, b3, b4, b5, b6, b7⟩ := ih s (i + 1) (by omega)
        refine ⟨s', t, ?_, b2, b3, b4, b5, b6, b7⟩
        rw [scan_loop, if_pos hlt, if_neg hr]
        exact b1
    · exact ⟨s, [], by rw [scan_loop, if_neg hlt], by simp, by simp [removes_of],
        fun x hx => hx, Nat.le_refl _, rfl, rfl⟩

theorem watch_fold_mem (f : Nat → Int) (fd : Int) :
    ∀ (l : List Nat) (init : Int → Bool),
      l.foldl (fun set i => FD_SET (f i) set) init fd = true ↔
        (∃ i ∈ l, f i = fd) ∨ init fd = true := by
  intro l
  induction l with
  | nil => intro init; simp
  | cons a l ih =>
    intro init
    rw [List.foldl_cons, ih]
    simp only [FD_SET, Bool.or_eq_true, beq_iff_eq, List.mem_cons, exists_eq_or_imp]
    constructor
    · rintro (h | h | h)
      · exact Or.inl (Or.inr h)
      · exact Or.inl (Or.inl h.symm)
      · exact Or.inr h
    · rintro ((h | h) | h)
      · exact Or.inr (Or.inl h.symm)
      · exact Or.inl h
      · exact Or.inr (Or.inr h)

theorem watch_set_mem (sock : Int) (s : State) (fd : Int) :
    watch_set sock s fd = true ↔ fd = sock ∨ fd ∈ registry s := by
  unfold watch_set
  rw [watch_fold_mem]
  simp only [FD_SET, registry, List.mem_map, List.mem_range, Bool.or_false, beq_iff_eq]
  constructor
  · rintro (⟨i, hi, h⟩ | h)
    · exact Or.inr ⟨i, hi, h⟩
    · exact Or.inl h
  · rintro (h | ⟨i, hi, h⟩)
    · exact Or.inr h
    · exact Or.inl ⟨i, hi, h⟩

theorem registry_connect (env : Env) (s : State) (sock : Int) :
    registry (server_new_client_connect env s sock).1 =
      registry s ++ [env.accept_ret s.naccept] := by
  simp only [registry, server_new_client_connect, List.range_succ, List.map_append,
    List.map_cons, List.map_nil, if_true]
  congr 1
  apply List.map_congr_left
  intro j hj
  have : j ≠ s.nb_sock := by
    have := List.mem_range.mp hj
    omega
  simp [this]

theorem server_select_iter_total (env : Env) (sock : Int) (l : Loop) :
    ∃ o t, server_select_iter env sock l = some o ∧
      o.loop.st.trace = l.st.trace ++ t ∧ (∀ p ∈ removes_of t, p.1 < p.2) := by
  unfold server_select_iter
  by_cases hs : env.select_ret l.st.nselect = SERVER_SOCKER_ERROR
  · exact ⟨_, [], by simp only [hs, if_true]; rfl, by simp [Outcome.loop], by simp [removes_of]⟩
  · simp only [hs, if_false]
    by_cases hl : select_rdfs env l.st.nselect (l.max_sock + 1) (watch_set sock l.st) sock = true
    · simp only [hl, if_true]
      by_cases ha : (server_new_client_connect env
          ({ l.st with nselect := l.st.nselect + 1 }) sock).2 = SERVER_SOCKER_ERROR
      · refine ⟨_, [Event.accept sock], by simp only [ha, if_true]; rfl, ?_, by simp [removes_of]⟩
        simp [Outcome.loop, server_new_client_connect]
      · refine ⟨_, [Event.accept sock], by simp only [ha, if_false]; rfl, ?_, by simp [removes_of]⟩
        simp [Outcome.loop, server_new_client_connect]
    · simp only [hl]
      obtain ⟨s', t, h1, h2, h3, _⟩ := scan_loop_spec env
        (select_rdfs env l.st.nselect (l.max_sock + 1) (watch_set sock l.st))
        ({ l.st with nselect := l.st.nselect + 1 }).nb_sock
        ({ l.st with nselect := l.st.nselect + 1 }) 0 (by omega)
      refine ⟨Outcome.next { l with st := s' }, t, ?_, ?_, h3⟩
      · simp only [scan_clients, h1]
        rfl
      · simpa [Outcome.loop] using h2

theorem server_select_iter_covers (env : Env) (sock : Int) (l l1 : Loop)
    (hinv : max_sock_covers sock l)
    (h : server_select_iter env sock l = some (Outcome.next l1)) :
    max_sock_covers sock l1 := by
  unfold server_select_iter at h
  by_cases hs : env.select_ret l.st.nselect = SERVER_SOCKER_ERROR
  · simp only [hs, if_true] at h
    cases h
  · simp only [hs, if_false] at h
    by_cases hl : select_rdfs env l.st.nselect (l.max_sock + 1) (watch_set sock l.st) sock = true
    · simp only [hl, if_true] at h
      by_cases ha : (server_new_client_connect env
          ({ l.st with nselect := l.st.nselect + 1 }) sock).2 = SERVER_SOCKER_ERROR
      · simp only [ha, if_true] at h
        cases h
      · simp only [ha, if_false] at h
        cases h
        have hreg := registry_connect env ({ l.st with nselect := l.st.nselect + 1 }) sock
        constructor
        · show sock ≤ (if _ then _ else _)
          have := hinv.1
          split <;> omega
        · intro fd hfd
          have hfd1 : fd ∈ registry (server_new_client_connect env
              ({ l.st with nselect := l.st.nselect + 1 }) sock).1 := hfd
          rw [hreg] at hfd1
          show fd ≤ (if env.accept_ret l.st.naccept > l.max_sock then
            env.accept_ret l.st.naccept else l.max_sock)
          rcases List.mem_append.mp hfd1 with hfd2 | hfd2
          · have := hinv.2 fd hfd2
            split <;> omega
          · simp only [List.mem_singleton] at hfd2
            have hfd3 : fd = env.accept_ret l.st.naccept := hfd2
            split <;> omega
    · simp only [hl] at h
      obtain ⟨s', t, h1, _, _, h4, _⟩ := scan_loop_spec env
        (select_rdfs env l.st.nselect (l.max_sock + 1) (watch_set sock l.st))
        ({ l.st with nselect := l.st.nselect + 1 }).nb_sock
        ({ l.st with nselect := l.st.nselect + 1 }) 0 (by omega)
      simp only [scan_clients, h1] at h
      cases h
      exact ⟨hinv.1, fun fd hfd => hinv.2 fd (h4 fd hfd)⟩

theorem server_select_covers (env : Env) (sock : Int) :
    ∀ (n : Nat) (l l1 : Loop), max_sock_covers sock l →
      server_select env sock n l = some (Outcome.next l1) → max_sock_covers sock l1 := by
  intro n
  induction n with
  | zero =>
    intro l l1 hinv h
    simp only [server_select] at h
    cases h
    exact hinv
  | succ n ih =>
    intro l l1 hinv h
    obtain ⟨o, _, ho, _⟩ := server_select_iter_total env sock l
    cases o with
    | next l2 =>
      have h' : server_select env sock n l2 = some (Outcome.next l1) := by
        simpa only [server_select, ho] using h
      exact ih l2 l1 (server_select_iter_covers env sock l l2 hinv ho) h'
    | returned l2 =>
      simp only [server_select, ho] at h
      cases h
    | exited l2 =>
      simp only [server_select, ho] at h
      cases h

theorem survivors_sublist (env : Env) (cs : List Int) :
    ∀ w : Nat, List.Sublist (survivors env w cs) cs := by
  induction cs with
  | nil => intro w; rw [survivors_nil]
  | cons c cs ih =>
    intro w
    rw [survivors_cons]
    split
    · exact List.Sublist.cons c (ih (w + 1))
    · exact List.Sublist.cons₂ c (ih (w + 1))

/-! ## The claims -/

/-- C1: for every registry, payload and assignment of write outcomes,
`server_send_all_client` returns, it makes exactly one write of the payload to
each client of the initial registry, in registry order, and the registry it
leaves is the sub-sequence of the initial registry whose write did not fail
(the write to the client at position `j` is the call number `nwrite + j`), in
the original order. -/
theorem server_send_all_client_one_write_each_keeps_survivors
    (env : Env) (s : State) (buf : List Nat) (buflen : Int) :
    ∃ s' t, server_send_all_client env s buf buflen = some s' ∧
      s'.trace = s.trace ++ t ∧
      writes_of t = (registry s).map (fun fd => (fd, buf.take buflen.toNat)) ∧
      registry s' = survivors env s.nwrite (registry s) ∧
      List.Sublist (registry s') (registry s) := by
  obtain ⟨s', t, h1, h2, h3, h4, _⟩ := server_send_all_client_spec env s buf buflen
  exact ⟨s', t, h1, h3, h4, h2, by rw [h2]; exact survivors_sublist env _ _⟩

/-- C2: for a registry of size `n` and an index `k < n`, `server_remove_client`
leaves a registry of size `n - 1` that is the original with the entry at `k`
erased: the cells before `k` are unchanged and the cell formerly at `j > k` is
now at `j - 1`. -/
theorem server_remove_client_erases_entry (s : State) (k : Nat) (hk : k < s.nb_sock) :
    (server_remove_client s k).nb_sock = s.nb_sock - 1 ∧
    (registry (server_remove_client s k)).length = (registry s).length - 1 ∧
    registry (server_remove_client s k) = (registry s).eraseIdx k ∧
    (∀ j, j < k → (server_remove_client s k).clients j = s.clients j) ∧
    (∀ j, k < j → j < s.nb_sock → (server_remove_client s k).clients (j - 1) = s.clients j) := by
  refine ⟨rfl, ?_, registry_remove s k hk, ?_, ?_⟩
  · rw [registry_length, registry_length]; rfl
  · intro j hj
    have : ¬ (k ≤ j ∧ j < k + (s.nb_sock - k - 1)) := by omega
    simp only [server_remove_client, memmove, if_neg this]
  · intro j hkj hj
    have : k ≤ j - 1 ∧ j - 1 < k + (s.nb_sock - k - 1) := by omega
    simp only [server_remove_client, memmove, if_pos this]
    congr 1
    omega

/-- Witness of C2: `[10, 20, 30]` with the entry at index 1 removed. -/
theorem server_remove_client_erases_entry_witness :
    1 < (state_of [10, 20, 30]).nb_sock ∧
    registry (server_remove_client (state_of [10, 20, 30]) 1) = [10, 30] :=
  ⟨by decide,
   (server_remove_client_erases_entry (state_of [10, 20, 30]) 1 (by decide)).2.2.1.trans
     (by decide)⟩

/-- C4: when the read on the client at index `k` returns `n` with
`1 <= n <= 1023` and delivers `n` bytes, `server_new_client_data` returns and
writes exactly those `n` bytes once to every client of the registry, in order,
the client at index `k` included. -/
theorem server_new_client_data_forwards_bytes_read
    (env : Env) (s : State) (k n : Nat) (hk : k < s.nb_sock)
    (hn1 : 1 ≤ n) (hn2 : n ≤ 1023)
    (hret : env.read_ret s.nread (s.clients k) = (n : Int))
    (hdata : (env.read_data s.nread (s.clients k)).length = n) :
    ∃ s' t, server_new_client_data env s k = some s' ∧
      s'.trace = s.trace ++ t ∧
      reads_of t = [s.clients k] ∧
      writes_of t =
        (registry s).map (fun fd => (fd, env.read_data s.nread (s.clients k))) ∧
      (s.clients k, env.read_data s.nread (s.clients k)) ∈ writes_of t := by
  have hr : ¬ env.read_ret s.nread (s.clients k) ≤ 0 := by rw [hret]; omega
  obtain ⟨s', t, h1, _, h3, h4, h5, _⟩ :=
    server_send_all_client_spec env
      ({ s with nread := s.nread + 1, trace := s.trace ++ [Event.read (s.clients k)] })
      (read_buf (env.read_data s.nread (s.clients k))) (env.read_ret s.nread (s.clients k))
  have hpay : (read_buf (env.read_data s.nread (s.clients k))).take
      (env.read_ret s.nread (s.clients k)).toNat = env.read_data s.nread (s.clients k) := by
    rw [hret]
    exact read_buf_take _ n hdata (by simp only [SERVER_BUFFER_SIZE]; omega)
  rw [hpay] at h4
  have hw : writes_of ([Event.read (s.clients k)] ++ t) =
      (registry s).map (fun fd => (fd, env.read_data s.nread (s.clients k))) := by
    rw [writes_of_append, h4]; rfl
  refine ⟨s', [Event.read (s.clients k)] ++ t, ?_, ?_, ?_, hw, ?_⟩
  · simp only [server_new_client_data, hr, if_false]
    exact h1
  · rw [h3]; simp
  · rw [reads_of_append, h5]; rfl
  · rw [hw]
    apply List.mem_map.mpr
    refine ⟨s.clients k, ?_, rfl⟩
    rw [← registry_getElem s k (by rw [registry_length]; exact hk)]
    exact List.getElem_mem _

/-- Witness of C4: registry `[4, 5]`, the client at index 0 sends three bytes. -/
theorem server_new_client_data_forwards_bytes_read_witness :
    (0 < (state_of [4, 5]).nb_sock ∧ 1 ≤ 3 ∧ 3 ≤ 1023 ∧
      env_quiet.read_ret 0 4 = 3 ∧ (env_quiet.read_data 0 4).length = 3) ∧
    ∃ s' t, server_new_client_data env_quiet (state_of [4, 5]) 0 = some s' ∧
      s'.trace = (state_of [4, 5]).trace ++ t ∧
      reads_of t = [(state_of [4, 5]).clients 0] ∧
      writes_of t = (registry (state_of [4, 5])).map
        (fun fd => (fd, env_quiet.read_data (state_of [4, 5]).nread
          ((state_of [4, 5]).clients 0))) ∧
      ((state_of [4, 5]).clients 0, env_quiet.read_data (state_of [4, 5]).nread
          ((state_of [4, 5]).clients 0)) ∈ writes_of t :=
  ⟨by decide,
   server_new_client_data_forwards_bytes_read env_quiet (state_of [4, 5]) 0 3
     (by decide) (by decide) (by decide) (by decide) (by decide)⟩

/-- C5: when the read on the client at index `k` yields zero or fewer bytes,
`server_new_client_data` returns, makes no write, and leaves the registry with
exactly the entry at `k` erased. -/
theorem server_new_client_data_failed_read_removes_reader
    (env : Env) (s : State) (k : Nat) (hk : k < s.nb_sock)
    (hret : env.read_ret s.nread (s.clients k) ≤ 0) :
    ∃ s' t, server_new_client_data env s k = some s' ∧
      s'.trace = s.trace ++ t ∧
      writes_of t = [] ∧
      registry s' = (registry s).eraseIdx k := by
  refine ⟨server_remove_client
      ({ s with nread := s.nread + 1, trace := s.trace ++ [Event.read (s.clients k)] }) k,
    [Event.read (s.clients k), Event.remove k s.nb_sock, Event.close (s.clients k)],
    ?_, ?_, rfl, ?_⟩
  · simp only [server_new_client_data, hret, if_true]
  · simp [server_remove_client]
  · exact registry_remove
      ({ s with nread := s.nread + 1, trace := s.trace ++ [Event.read (s.clients k)] }) k hk

/-- Witness of C5: registry `[4, 5, 6]`, the read on the client at index 1
returns `0`. -/
theorem server_new_client_data_failed_read_removes_reader_witness :
    (1 < (state_of [4, 5, 6]).nb_sock ∧
      ({ env_quiet with read_ret := fun _ _ => 0 } : Env).read_ret
        (state_of [4, 5, 6]).nread ((state_of [4, 5, 6]).clients 1) ≤ 0) ∧
    ∃ s' t, server_new_client_data ({ env_quiet with read_ret := fun _ _ => 0 })
        (state_of [4, 5, 6]) 1 = some s' ∧
      s'.trace = (state_of [4, 5, 6]).trace ++ t ∧
      writes_of t = [] ∧
      registry s' = (registry (state_of [4, 5, 6])).eraseIdx 1 :=
  ⟨by decide,
   server_new_client_data_failed_read_removes_reader
     ({ env_quiet with read_ret := fun _ _ => 0 }) (state_of [4, 5, 6]) 1
     (by decide) (by decide)⟩

/-- C3 (the code does not keep the bound): with `max_clients = 1`, after one
accepted connection the registry holds `max_clients` entries; a second
listener-ready event is accepted all the same, the handle is stored in
`clients[1]`, outside `client_info clients[1]`, and `nb_sock` becomes `2`. -/
theorem accept_on_full_registry_exceeds_max_clients :
    ∃ l1 l2,
      server_select env_only_listener 3 1 (server_select_init 3 1 (fun _ => 0))
        = some (Outcome.next l1) ∧
      l1.max_clients = 1 ∧ l1.st.nb_sock = 1 ∧ registry l1.st = [4] ∧
      server_select_iter env_only_listener 3 l1 = some (Outcome.next l2) ∧
      l2.max_clients = 1 ∧ l2.st.nb_sock = 2 ∧ registry l2.st = [4, 5] ∧
      server_select env_only_listener 3 2 (server_select_init 3 1 (fun _ => 0))
        = some (Outcome.next l2) :=
  ⟨_, _, rfl, rfl, rfl, by decide, rfl, rfl, rfl, by decide, rfl⟩

/-- C6 as stated fails: with an empty registry, the listener ready and a
failing `accept`, the iteration does not continue to a next iteration with the
registry unchanged. -/
theorem failed_accept_does_not_continue :
    ¬ ∃ l1, server_select_iter env_accept_fails 3 (server_select_init 3 10 (fun _ => 0))
          = some (Outcome.next l1) ∧
        registry l1.st = registry (server_select_init 3 10 (fun _ => 0)).st := by
  rintro ⟨l1, h, _⟩
  have hev : ∃ l2, server_select_iter env_accept_fails 3
      (server_select_init 3 10 (fun _ => 0)) = some (Outcome.returned l2) := ⟨_, rfl⟩
  obtain ⟨l2, h2⟩ := hev
  rw [h2] at h
  cases h

/-- C6, amended: when `select` succeeds, the listener is ready and `accept`
fails, the iteration makes `server_select` return, so the dispatch loop ends
there instead of going on to a next iteration; no client is read, written to
or removed in that iteration. -/
theorem failed_accept_ends_dispatch_loop (env : Env) (sock : Int) (l : Loop)
    (hsel : env.select_ret l.st.nselect ≠ SERVER_SOCKER_ERROR)
    (hready : select_rdfs env l.st.nselect (l.max_sock + 1) (watch_set sock l.st) sock = true)
    (hacc : env.accept_ret l.st.naccept = SERVER_SOCKER_ERROR) :
    ∃ l1, server_select_iter env sock l = some (Outcome.returned l1) ∧
      (∀ n, server_select env sock (n + 1) l = some (Outcome.returned l1)) ∧
      reads_of l1.st.trace = reads_of l.st.trace ∧
      writes_of l1.st.trace = writes_of l.st.trace ∧
      removes_of l1.st.trace = removes_of l.st.trace := by
  have ha : (server_new_client_connect env
      ({ l.st with nselect := l.st.nselect + 1 }) sock).2 = SERVER_SOCKER_ERROR := hacc
  have hiter : server_select_iter env sock l = some (Outcome.returned
      { l with st := (server_new_client_connect env
          ({ l.st with nselect := l.st.nselect + 1 }) sock).1 }) := by
    unfold server_select_iter
    simp only [hsel, if_false, hready, if_true, ha]
  refine ⟨_, hiter, ?_, ?_, ?_, ?_⟩
  · intro n
    simp only [server_select, hiter]
  · simp [server_new_client_connect, reads_of_append, reads_of]
  · simp [server_new_client_connect, writes_of_append, writes_of]
  · simp [server_new_client_connect, removes_of_append, removes_of]

/-- Witness of C6, amended: empty registry, listener `3` ready, `accept` fails. -/
theorem failed_accept_ends_dispatch_loop_witness :
    (env_accept_fails.select_ret (server_select_init 3 10 (fun _ => 0)).st.nselect
        ≠ SERVER_SOCKER_ERROR ∧
      select_rdfs env_accept_fails (server_select_init 3 10 (fun _ => 0)).st.nselect
        ((server_select_init 3 10 (fun _ => 0)).max_sock + 1)
        (watch_set 3 (server_select_init 3 10 (fun _ => 0)).st) 3 = true ∧
      env_accept_fails.accept_ret (server_select_init 3 10 (fun _ => 0)).st.naccept
        = SERVER_SOCKER_ERROR) ∧
    ∃ l1, server_select_iter env_accept_fails 3 (server_select_init 3 10 (fun _ => 0))
        = some (Outcome.returned l1) ∧
      (∀ n, server_select env_accept_fails 3 (n + 1) (server_select_init 3 10 (fun _ => 0))
        = some (Outcome.returned l1)) ∧
      reads_of l1.st.trace = reads_of (server_select_init 3 10 (fun _ => 0)).st.trace ∧
      writes_of l1.st.trace = writes_of (server_select_init 3 10 (fun _ => 0)).st.trace ∧
      removes_of l1.st.trace = removes_of (server_select_init 3 10 (fun _ => 0)).st.trace :=
  ⟨by decide,
   failed_accept_ends_dispatch_loop env_accept_fails 3 (server_select_init 3 10 (fun _ => 0))
     (by decide) (by decide) (by decide)⟩

/-- C7 (the scan skips a ready client): from the empty registry two clients
`4` and `5` are accepted; in the third iteration the listener is not ready and
both clients are; the read on `4` returns `0`, so `4` is removed, and the scan
ends without a read on `5`, which is ready, registered and never removed. -/
theorem scan_skips_ready_client_after_removal :
    ∃ l0 l1,
      server_select env_first_reader_closes 3 2 (server_select_init 3 10 (fun _ => 0))
        = some (Outcome.next l0) ∧
      registry l0.st = [4, 5] ∧ reads_of l0.st.trace = [] ∧
      select_rdfs env_first_reader_closes l0.st.nselect (l0.max_sock + 1)
        (watch_set 3 l0.st) 3 = false ∧
      select_rdfs env_first_reader_closes l0.st.nselect (l0.max_sock + 1)
        (watch_set 3 l0.st) 4 = true ∧
      select_rdfs env_first_reader_closes l0.st.nselect (l0.max_sock + 1)
        (watch_set 3 l0.st) 5 = true ∧
      server_select_iter env_first_reader_closes 3 l0 = some (Outcome.next l1) ∧
      reads_of l1.st.trace = [4] ∧ removes_of l1.st.trace = [(0, 2)] ∧
      registry l1.st = [5] :=
  ⟨_, _, rfl, by decide, by decide, by decide, by decide, by decide, rfl, by decide,
    by decide, by decide⟩

/-- C8 as stated fails: registry `[1, 2, 3]`, the write to `2` fails, and the
client `3`, after `2` in write order, is sent the payload all the same. -/
theorem broadcast_reaches_clients_after_failed_write :
    ¬ ∀ s', server_send_all_client env_second_write_fails (state_of [1, 2, 3]) [7, 8] 2
          = some s' →
        ∀ j m : Nat, j < 3 →
          env_second_write_fails.write_ret j ((state_of [1, 2, 3]).clients j)
            = SERVER_SOCKER_ERROR →
          j < m → m < 3 →
          ((state_of [1, 2, 3]).clients m, [7, 8]) ∉ writes_of s'.trace := by
  intro h
  exact h _ rfl 1 2 (by decide) (by decide) (by decide) (by decide) (by decide)

/-- C8, amended: if the write to the client `X` at position `j` fails during
the broadcast of `P`, the broadcast still returns after exactly one write of
`P` to every client of the registry, those before `X` and those after `X`
alike, and, the handles of the registry being distinct, `X` is not in the
registry when the broadcast returns. -/
theorem broadcast_failed_write_removes_that_client
    (env : Env) (s : State) (buf : List Nat) (buflen : Int) (j : Nat)
    (hj : j < s.nb_sock) (hnodup : (registry s).Nodup)
    (hfail : env.write_ret (s.nwrite + j) (s.clients j) = SERVER_SOCKER_ERROR) :
    ∃ s' t, server_send_all_client env s buf buflen = some s' ∧
      s'.trace = s.trace ++ t ∧
      writes_of t = (registry s).map (fun fd => (fd, buf.take buflen.toNat)) ∧
      (∀ m, m < s.nb_sock → (s.clients m, buf.take buflen.toNat) ∈ writes_of t) ∧
      s.clients j ∉ registry s' := by
  obtain ⟨s', t, h1, h2, h3, h4, _⟩ := server_send_all_client_spec env s buf buflen
  refine ⟨s', t, h1, h3, h4, ?_, ?_⟩
  · intro m hm
    rw [h4]
    apply List.mem_map.mpr
    refine ⟨s.clients m, ?_, rfl⟩
    rw [← registry_getElem s m (by rw [registry_length]; exact hm)]
    exact List.getElem_mem _
  · intro hmem
    rw [h2] at hmem
    obtain ⟨m, hm, e1, e2⟩ := mem_survivors env (registry s) s.nwrite (s.clients j) hmem
    have hjl : j < (registry s).length := by rw [registry_length]; exact hj
    have e3 : (registry s)[m] = (registry s)[j] := by rw [e1, registry_getElem]
    have e4 : m = j := (hnodup.getElem_inj_iff).mp e3
    subst e4
    exact e2 hfail

/-- Witness of C8, amended: registry `[1, 2, 3]`, the write to `2` fails. -/
theorem broadcast_failed_write_removes_that_client_witness :
    (1 < (state_of [1, 2, 3]).nb_sock ∧ (registry (state_of [1, 2, 3])).Nodup ∧
      env_second_write_fails.write_ret ((state_of [1, 2, 3]).nwrite + 1)
        ((state_of [1, 2, 3]).clients 1) = SERVER_SOCKER_ERROR) ∧
    ∃ s' t, server_send_all_client env_second_write_fails (state_of [1, 2, 3]) [7, 8] 2
        = some s' ∧
      s'.trace = (state_of [1, 2, 3]).trace ++ t ∧
      writes_of t = (registry (state_of [1, 2, 3])).map
        (fun fd => (fd, ([7, 8] : List Nat).take (2 : Int).toNat)) ∧
      (∀ m, m < (state_of [1, 2, 3]).nb_sock →
        ((state_of [1, 2, 3]).clients m, ([7, 8] : List Nat).take (2 : Int).toNat)
          ∈ writes_of t) ∧
      (state_of [1, 2, 3]).clients 1 ∉ registry s' :=
  ⟨by decide,
   broadcast_failed_write_removes_that_client env_second_write_fails (state_of [1, 2, 3])
     [7, 8] 2 1 (by decide) (by decide) (by decide)⟩

/-- C9: in every iteration of the dispatch loop, whatever the registry, the
ready set and the outcomes of the reads and writes, the iteration ends and
every call of `server_remove_client` made in it receives an index `k` that is
below the value of `nb_sock` at the moment of the call. -/
theorem remove_index_below_nb_sock (env : Env) (sock : Int) (l : Loop) :
    ∃ o t, server_select_iter env sock l = some o ∧
      o.loop.st.trace = l.st.trace ++ t ∧
      ∀ k n, (k, n) ∈ removes_of t → k < n := by
  obtain ⟨o, t, h1, h2, h3⟩ := server_select_iter_total env sock l
  exact ⟨o, t, h1, h2, fun k n hkn => h3 (k, n) hkn⟩

/-- C10: `max_sock` bounds the listening socket and every handle of the
registry on entry to the loop, an iteration that goes on to the next one keeps
that, hence it holds at the start of every iteration, where every handle of
the watch set is below the range `max_sock + 1` given to `select`. -/
theorem max_sock_covers_watch_set :
    (∀ (sock : Int) (max_clients : Nat) (mem : Nat → Int),
      max_sock_covers sock (server_select_init sock max_clients mem)) ∧
    (∀ (env : Env) (sock : Int) (l l1 : Loop), max_sock_covers sock l →
      server_select_iter env sock l = some (Outcome.next l1) → max_sock_covers sock l1) ∧
    (∀ (env : Env) (sock : Int) (max_clients : Nat) (mem : Nat → Int) (n : Nat) (l : Loop),
      server_select env sock n (server_select_init sock max_clients mem)
        = some (Outcome.next l) →
      sock ≤ l.max_sock ∧ (∀ fd ∈ registry l.st, fd ≤ l.max_sock) ∧
      ∀ fd, watch_set sock l.st fd = true → fd < l.max_sock + 1) := by
  have hinit : ∀ (sock : Int) (max_clients : Nat) (mem : Nat → Int),
      max_sock_covers sock (server_select_init sock max_clients mem) := by
    intro sock max_clients mem
    refine ⟨Int.le_refl _, ?_⟩
    intro fd hfd
    simp [registry, server_select_init] at hfd
  refine ⟨hinit, server_select_iter_covers, ?_⟩
  intro env sock max_clients mem n l h
  have hc := server_select_covers env sock n _ l (hinit sock max_clients mem) h
  refine ⟨hc.1, hc.2, ?_⟩
  intro fd hfd
  rcases (watch_set_mem sock l.st fd).mp hfd with e | e
  · have := hc.1
    omega
  · have := hc.2 fd e
    omega

/-- Witness of C10: the state at the start of the third iteration, after two
accepted connections. -/
theorem max_sock_covers_watch_set_witness :
    ∃ l, server_select env_only_listener 3 2 (server_select_init 3 10 (fun _ => 0))
        = some (Outcome.next l) ∧
      registry l.st = [4, 5] ∧ l.max_sock = 5 ∧
      3 ≤ l.max_sock ∧ (∀ fd ∈ registry l.st, fd ≤ l.max_sock) ∧
      ∀ fd, watch_set 3 l.st fd = true → fd < l.max_sock + 1 :=
  ⟨_, rfl, by decide, by decide,
    max_sock_covers_watch_set.2.2 env_only_listener 3 10 (fun _ => 0) 2 _ rfl⟩

end UniversalServer
